import Mathlib

/-!
Verification of the lunataiko TJA chart parser and keyboard-state model.

The parser (`metadata_pair`, `start_command`, `end_command`, `notes`,
`note_track`, `tja_file`, `parse_tja_file`, the preprocessor and the timing
builder) is not present in the repository snapshot; only its test module is.
Those components are therefore modelled from the specification, faithful to
its words and checked against the behaviours the test module pins down.
Parsers follow the nom convention: on success they return the *remaining*
input together with the parsed value; on failure they return `none`.
Input is represented as a list of characters.

`KeyboardState` (from `src/app/mod.rs`) is embedded directly from the source.
-/

/-- Characters of a string literal, the representation all parsers work on. -/
def pstr (s : String) : List Char := s.data

/-- Player designator for a `#START` command (`P1` / `P2`). -/
inductive Player where
  | player1
  | player2
deriving DecidableEq, Repr

/-- Modelled from the spec: the playable note symbols (§3).  Digit `0` maps to
a rest, represented as `none` at use sites; the remaining digits map to these
variants.  The mapping of `3`–`9` follows the standard chart-format
convention, which the spec marks as provisional beyond `0`–`2`. -/
inductive TJANoteType where
  | Don
  | Kat
  | BigDon
  | BigKat
  | DrumrollStart
  | BigDrumrollStart
  | BalloonStart
  | DrumrollEnd
  | Kusudama
deriving DecidableEq, Repr

/-- Modelled from the spec: control commands in a note track (§3). -/
inductive TrackCommand where
  | start (player : Option Player)
  | «end»
  | gogoStart
  | gogoEnd
  | measure (numerator denominator : Nat)
deriving DecidableEq, Repr

/-- Modelled from the spec: one entry of a parsed note track (§3). -/
inductive NoteTrackEntry where
  | command (c : TrackCommand)
  | notes (ns : List (Option TJANoteType))
  | endMeasure
deriving DecidableEq, Repr

/-- Modelled from the spec: a top-level chart item (§3), either a metadata
key/value pair or a full note track. -/
inductive TJAFileItem where
  | metadata (key value : List Char)
  | noteTrack (entries : List NoteTrackEntry)
deriving DecidableEq, Repr

/-- Modelled from the spec: parse-error taxonomy (§7).  `metadataNeeded` is
the `MetadataNeeded(key)` error of §4.5 (called `MissingRequiredMetadata`
in §7). -/
inductive TJAParseError where
  | grammarError
  | metadataNeeded (key : List Char)
  | invalidMetadata (key : List Char)
deriving DecidableEq, Repr

/-- Whitespace characters skipped between grammar units. -/
def isWs (c : Char) : Bool :=
  c = ' ' || c = '\n' || c = '\r' || c = '\t'

/-- Skip leading whitespace. -/
def skipWs (l : List Char) : List Char :=
  l.dropWhile isWs

/-- Match a literal prefix, returning the remainder on success. -/
def stripPrefixCL : List Char → List Char → Option (List Char)
  | [], input => some input
  | _ :: _, [] => none
  | p :: ps, c :: cs => if p = c then stripPrefixCL ps cs else none

/-- Consume a line terminator (`\n` or `\r\n`) or accept end of input;
anything else fails.  Returns the input after the terminator. -/
def lineEnding : List Char → Option (List Char)
  | [] => some []
  | c :: r =>
    if c = '\n' then some r
    else if c = '\r' then
      match r with
      | [] => none
      | c2 :: r2 => if c2 = '\n' then some r2 else none
    else none

/-- Key characters of a metadata tag name: uppercase alphanumeric (§4.2). -/
def isKeyChar (c : Char) : Bool :=
  c.isUpper || c.isDigit

/-- A value character extends to the end of the line (§4.2). -/
def isValueChar (c : Char) : Bool :=
  c ≠ '\n' && c ≠ '\r'

/-- Modelled from the spec: `metadata_pair` (§4.2) — a nonempty uppercase
alphanumeric tag name, `:`, then a value run extending to end of line or end
of input; the line terminator is consumed but excluded from the value. -/
def metadata_pair (input : List Char) : Option (List Char × (List Char × List Char)) :=
  let key := input.takeWhile isKeyChar
  if key.isEmpty then none
  else
    match input.dropWhile isKeyChar with
    | ':' :: rest =>
      let value := rest.takeWhile isValueChar
      (lineEnding (rest.dropWhile isValueChar)).map fun r => (r, (key, value))
    | _ => none

/-- Modelled from the spec: the digit-to-note mapping (§3); total on digits,
`'0'` giving a rest (`none`). -/
def digitToNote : Char → Option TJANoteType
  | '1' => some .Don
  | '2' => some .Kat
  | '3' => some .BigDon
  | '4' => some .BigKat
  | '5' => some .DrumrollStart
  | '6' => some .BigDrumrollStart
  | '7' => some .BalloonStart
  | '8' => some .DrumrollEnd
  | '9' => some .Kusudama
  | _ => none

/-- Modelled from the spec: `notes` (§4.3) — a nonempty run of digit
characters, each mapped independently to an optional note; the terminating
comma is left unconsumed. -/
def notes (input : List Char) : Option (List Char × List (Option TJANoteType)) :=
  let run := input.takeWhile Char.isDigit
  if run.isEmpty then none
  else some (input.dropWhile Char.isDigit, run.map digitToNote)

/-- Modelled from the spec: `end_command` (§4.3) — optional leading
whitespace, then `#END` followed only by a line terminator or end of input. -/
def end_command (input : List Char) : Option (List Char) :=
  match stripPrefixCL (pstr "#END") (skipWs input) with
  | some rest => lineEnding rest
  | none => none

/-- Modelled from the spec: `start_command` (§4.3) — optional leading
whitespace, then `#START`, optionally followed by a single space and `P1` or
`P2`, then a line terminator or end of input. -/
def start_command (input : List Char) : Option (List Char × TrackCommand) :=
  match stripPrefixCL (pstr "#START") (skipWs input) with
  | none => none
  | some rest =>
    match lineEnding rest with
    | some r => some (r, .start none)
    | none =>
      match rest with
      | [] => none
      | c :: r1 =>
        if c = ' ' then
          match stripPrefixCL (pstr "P1") r1 with
          | some r2 => (lineEnding r2).map fun r3 => (r3, .start (some .player1))
          | none =>
            match stripPrefixCL (pstr "P2") r1 with
            | some r2 => (lineEnding r2).map fun r3 => (r3, .start (some .player2))
            | none => none
        else none

/-- Parse a nonempty digit run as a natural number. -/
def parseNat (input : List Char) : Option (List Char × Nat) :=
  let run := input.takeWhile Char.isDigit
  if run.isEmpty then none
  else some (input.dropWhile Char.isDigit,
             run.foldl (fun a c => a * 10 + (c.toNat - 48)) 0)

/-- Modelled from the spec: inner track commands (§4.3) — `#GOGOSTART`,
`#GOGOEND` and `#MEASURE a/b` with `a`, `b` positive integers; an exact
keyword match with no trailing tokens, terminated by line end or end of
input. -/
def inner_track_command (input : List Char) : Option (List Char × TrackCommand) :=
  let i := skipWs input
  match stripPrefixCL (pstr "#GOGOSTART") i with
  | some rest => (lineEnding rest).map fun r => (r, .gogoStart)
  | none =>
    match stripPrefixCL (pstr "#GOGOEND") i with
    | some rest => (lineEnding rest).map fun r => (r, .gogoEnd)
    | none =>
      match stripPrefixCL (pstr "#MEASURE ") i with
      | some rest =>
        match parseNat rest with
        | some (r1, a) =>
          match r1 with
          | '/' :: r2 =>
            match parseNat r2 with
            | some (r3, b) =>
              if a ≠ 0 && b ≠ 0 then
                (lineEnding r3).map fun r => (r, .measure a b)
              else none
            | none => none
          | _ => none
        | none => none
      | none => none

/-- Modelled from the spec: one unit inside a note track (§4.3) — an inner
command line, a digit run, or a comma closing the current measure. -/
def noteTrackEntry (input : List Char) : Option (List Char × NoteTrackEntry) :=
  match inner_track_command input with
  | some (r, c) => some (r, .command c)
  | none =>
    match skipWs input with
    | ',' :: r => some (r, .endMeasure)
    | i =>
      match notes i with
      | some (r, ns) => some (r, .notes ns)
      | none => none

/-- Repeatedly parse note-track units, stopping at the first failure.
`fuel` bounds the number of iterations; callers pass the input length, which
suffices because every successful unit consumes at least one character. -/
def noteTrackEntries : Nat → List Char → List Char × List NoteTrackEntry
  | 0, input => (input, [])
  | fuel + 1, input =>
    match noteTrackEntry input with
    | none => (input, [])
    | some (rest, e) =>
      let (rem, es) := noteTrackEntries fuel rest
      (rem, e :: es)

/-- Modelled from the spec: `note_track` (§4.3) — a `#START` command, a run
of inner units, then a `#END` command (consumed but not emitted).  The
`Start` command is the first emitted entry. -/
def note_track (input : List Char) : Option (List Char × List NoteTrackEntry) :=
  match start_command input with
  | none => none
  | some (rest, sc) =>
    let (rest2, entries) := noteTrackEntries (rest.length + 1) rest
    match end_command rest2 with
    | some rem => some (rem, .command sc :: entries)
    | none => none

/-- Drop leading spaces and tabs of a metadata value at chart-assembly
level (the assembled item stores the trimmed value). -/
def trimValue (v : List Char) : List Char :=
  v.dropWhile fun c => c = ' ' || c = '\t'

/-- Modelled from the spec: one top-level chart item (§4.4) — a metadata
line or a full note-track block. -/
def tjaItem (input : List Char) : Option (List Char × TJAFileItem) :=
  match metadata_pair (skipWs input) with
  | some (r, (k, v)) => some (r, .metadata k (trimValue v))
  | none =>
    match note_track input with
    | some (r, entries) => some (r, .noteTrack entries)
    | none => none

/-- Repeatedly parse top-level items, stopping at the first failure. -/
def tjaItems : Nat → List Char → List Char × List TJAFileItem
  | 0, input => (input, [])
  | fuel + 1, input =>
    match tjaItem input with
    | none => (input, [])
    | some (rest, it) =>
      let (rem, its) := tjaItems fuel rest
      (rem, it :: its)

/-- Modelled from the spec: `tja_file` (§4.4) — an interleaved sequence of
metadata lines and note-track blocks covering the whole input; any line
matching neither form fails the whole parse, so no partial item list is ever
returned. -/
def tja_file (input : List Char) : Option (List Char × List TJAFileItem) :=
  let res := tjaItems (input.length + 1) input
  if (skipWs res.1).isEmpty then some ([], res.2) else none

/-- Fuel-bounded worker for the preprocessor; a fuel of the input length
always suffices since every step consumes at least one character. -/
def preprocessAux : Nat → List Char → List Char
  | 0, l => l
  | _ + 1, [] => []
  | fuel + 1, '/' :: '/' :: rest =>
    preprocessAux fuel (rest.dropWhile (· ≠ '\n'))
  | fuel + 1, c :: rest => c :: preprocessAux fuel rest

/-- Modelled from the spec: the preprocessor (§4.1) — remove every `//`
comment up to (excluding) the line end, leaving newlines intact. -/
def preprocess_tja_file (l : List Char) : List Char :=
  preprocessAux l.length l

/-- A note with its resolved absolute playback time and scroll speed (§3).
Times are modelled as rationals. -/
structure TimedNote where
  noteType : TJANoteType
  time : ℚ
  scroll : ℚ
deriving DecidableEq, Repr

/-- A measure boundary with its resolved time, scroll speed and
visibility (§3). -/
structure TimedBarline where
  time : ℚ
  scroll : ℚ
  visible : Bool
deriving DecidableEq, Repr

/-- One difficulty's resolved note and barline sequences (§3). -/
structure Difficulty where
  notes : List TimedNote
  barlines : List TimedBarline
deriving DecidableEq, Repr

/-- Modelled from the spec: the `Song` aggregate (§3) — title, initial
tempo, audio filename and the resolved difficulties.  Difficulties are kept
in source order rather than indexed by course; no property verified here
depends on course indexing. -/
structure Song where
  title : List Char
  bpm : ℚ
  wave : List Char
  difficulties : List Difficulty
deriving DecidableEq, Repr

/-- Modelled from the spec: a measure's duration in seconds at a given tempo
and measure signature — `(60 / tempo) * 4 * (numerator / denominator)`
(§4.6). -/
def measureDuration (tempo numerator denominator : ℚ) : ℚ :=
  60 / tempo * 4 * (numerator / denominator)

/-- Running state of the timing builder (§4.6): current tempo, measure
signature, scroll speed, gogo and barline-visibility flags, the absolute
time cursor, the note slots accumulated for the current measure, and the
output emitted so far. -/
structure TimingState where
  tempo : ℚ
  numerator : ℚ
  denominator : ℚ
  scroll : ℚ
  time : ℚ
  gogo : Bool
  barlineVisible : Bool
  pending : List (Option TJANoteType)
  notesOut : List TimedNote
  barlinesOut : List TimedBarline
deriving DecidableEq, Repr

/-- Initial timing state for a track at the chart's declared tempo (§4.6):
4/4 measure, scroll 1, time 0. -/
def initTiming (bpm : ℚ) : TimingState :=
  { tempo := bpm, numerator := 4, denominator := 4, scroll := 1, time := 0,
    gogo := false, barlineVisible := true, pending := [],
    notesOut := [], barlinesOut := [] }

/-- Modelled from the spec: one step of the timing builder (§4.6).  `Start`
resets the time cursor; `Measure` updates the signature; gogo commands only
toggle a flag; `Notes` accumulates slots; `EndMeasure` spaces the pending
slots evenly over the measure, emits a barline, and advances the cursor by
the measure duration. -/
def stepTiming (st : TimingState) : NoteTrackEntry → TimingState
  | .command (.start _) => { st with time := 0, pending := [] }
  | .command .«end» => st
  | .command .gogoStart => { st with gogo := true }
  | .command .gogoEnd => { st with gogo := false }
  | .command (.measure a b) => { st with numerator := a, denominator := b }
  | .notes ns => { st with pending := st.pending ++ ns }
  | .endMeasure =>
    let d := measureDuration st.tempo st.numerator st.denominator
    let total := st.pending.length
    let emitted := st.pending.enum.filterMap fun p =>
      p.2.map fun nt =>
        { noteType := nt, time := st.time + (p.1 : ℚ) / (total : ℚ) * d,
          scroll := st.scroll : TimedNote }
    { st with
      time := st.time + d
      pending := []
      notesOut := st.notesOut ++ emitted
      barlinesOut := st.barlinesOut ++
        [{ time := st.time, scroll := st.scroll, visible := st.barlineVisible }] }

/-- Modelled from the spec: resolve one track's entries into a difficulty
by folding the timing builder over them (§4.6). -/
def buildDifficulty (bpm : ℚ) (entries : List NoteTrackEntry) : Difficulty :=
  let final := entries.foldl stepTiming (initTiming bpm)
  { notes := final.notesOut, barlines := final.barlinesOut }

/-- Numeric value of a digit run. -/
def natVal (run : List Char) : Nat :=
  run.foldl (fun a c => a * 10 + (c.toNat - 48)) 0

/-- Parse a decimal numeral (digits with an optional fractional part) as a
rational; used for the `BPM` metadata value. -/
def parseDecimal (v : List Char) : Option ℚ :=
  let ip := v.takeWhile Char.isDigit
  if ip.isEmpty then none
  else
    match v.dropWhile Char.isDigit with
    | [] => some (natVal ip : ℚ)
    | '.' :: frac =>
      if !frac.isEmpty && frac.all Char.isDigit then
        some ((natVal ip : ℚ) + (natVal frac : ℚ) / (10 : ℚ) ^ frac.length)
      else none
    | _ => none

/-- Does the item list contain a metadata pair with the given key? -/
def hasKeyB (items : List TJAFileItem) (key : List Char) : Bool :=
  items.any fun it =>
    match it with
    | .metadata k _ => decide (k = key)
    | _ => false

/-- The value of the last metadata pair with the given key
(last-writer-wins, §3). -/
def getMeta (items : List TJAFileItem) (key : List Char) : Option (List Char) :=
  items.reverse.findSome? fun it =>
    match it with
    | .metadata k v => if k = key then some v else none
    | _ => none

/-- The required metadata keys, in the order they are checked (§4.5). -/
def requiredKeys : List (List Char) :=
  [pstr "TITLE", pstr "BPM", pstr "WAVE"]

/-- The first required metadata key missing from the item list, if any. -/
def firstMissingKey (items : List TJAFileItem) : Option (List Char) :=
  requiredKeys.find? fun k => !hasKeyB items k

/-- Modelled from the spec: `parse_tja_file` (§4.5) — preprocess, run chart
assembly, enforce the required metadata `TITLE`, `BPM`, `WAVE` in that
order (failing with `metadataNeeded` on the first missing key), then build
the `Song` with each note track resolved by the timing builder. -/
def parse_tja_file (s : String) : Except TJAParseError Song :=
  match tja_file (preprocess_tja_file (pstr s)) with
  | none => .error .grammarError
  | some (_, items) =>
    match firstMissingKey items with
    | some k => .error (.metadataNeeded k)
    | none =>
      match parseDecimal ((getMeta items (pstr "BPM")).getD []) with
      | none => .error (.invalidMetadata (pstr "BPM"))
      | some bpm =>
        .ok { title := (getMeta items (pstr "TITLE")).getD []
              bpm := bpm
              wave := (getMeta items (pstr "WAVE")).getD []
              difficulties := items.filterMap fun it =>
                match it with
                | .noteTrack es => some (buildDifficulty bpm es)
                | _ => none }

/-- The keyboard state from `src/app/mod.rs`: a map from keycodes to a pair
of booleans — whether the key was pressed last frame and whether it is
pressed this frame.  Keycodes are modelled as naturals; the map is an
association list with unique keys, mirroring the `HashMap`. -/
structure KeyboardState where
  map : List (Nat × (Bool × Bool))
deriving DecidableEq, Repr

/-- From the source, `KeyboardState::handle_input`: if the event carries a
keycode, set the
this-frame flag of its entry to the event's pressed state, inserting
`(false, false)` first when the key has no entry. -/
def KeyboardState.handle_input (st : KeyboardState) (code : Option Nat)
    (pressed : Bool) : KeyboardState :=
  match code with
  | none => st
  | some c =>
    if (st.map.lookup c).isSome then
      ⟨st.map.map fun e => if e.1 = c then (e.1, (e.2.1, pressed)) else e⟩
    else
      ⟨(c, (false, pressed)) :: st.map⟩

/-- From the source, `KeyboardState::is_pressed`: whether the key is
pressed this frame. -/
def KeyboardState.is_pressed (st : KeyboardState) (key : Nat) : Bool :=
  match st.map.lookup key with
  | some p => p.2
  | none => false

/-- From the source, `KeyboardState::is_just_pressed`: pressed this frame
but not last frame. -/
def KeyboardState.is_just_pressed (st : KeyboardState) (key : Nat) : Bool :=
  match st.map.lookup key with
  | some p => !p.1 && p.2
  | none => false

/-- From the source, `KeyboardState::is_just_released`: released this
frame but pressed last frame. -/
def KeyboardState.is_just_released (st : KeyboardState) (key : Nat) : Bool :=
  match st.map.lookup key with
  | some p => p.1 && !p.2
  | none => false

/-! ## Concrete chart texts (from the repository's test module) -/

/-- The full valid chart of `test_tja_file_full`. -/
def okFullChart : String :=
  "TITLE: POP TEAM EPIC\nBPM:142\nWAVE:POP TEAM EPIC.ogg\n\n\nBALLOON:10,20\nCOURSE:Easy\nLEVEL:1\n\n#START\n\n1100,\n1100,\n2,\n7,\n,\n9,\n\n#END\n"

/-- The same chart with its first line (the `TITLE` line) commented out. -/
def noTitleChart : String := "//" ++ okFullChart

/-- The item list produced for `noTitleChart` by chart assembly. -/
def noTitleItems : List TJAFileItem :=
  (tjaItems ((preprocess_tja_file (pstr noTitleChart)).length + 1)
    (preprocess_tja_file (pstr noTitleChart))).2

/-- The item list produced for `okFullChart` by chart assembly. -/
def okFullItems : List TJAFileItem :=
  (tjaItems ((preprocess_tja_file (pstr okFullChart)).length + 1)
    (preprocess_tja_file (pstr okFullChart))).2

/-- The chart of `test_tja_file_item_list` whose `#GOGOSTART` line carries
forbidden trailing tokens. -/
def errChart : String :=
  "TITLE: POP TEAM EPIC\nBPM:142\n\nWAVE:POP TEAM EPIC.ogg\n\n\n#START\n\n#GOGOSTART oops this value shouldnt exist\n\n1100,\n1100,\n2,\n,\n\n#END\n"

/-- The chart of `test_measure_command`. -/
def fiveFourChart : String := "#START\n#MEASURE 5/4\n#END\n\n"

/-! ## Helper lemmas -/

/-- The function `stripPrefixCL` succeeds exactly on inputs that extend
the matched literal. -/
theorem stripPrefixCL_eq_some_iff (p : List Char) :
    ∀ l r : List Char, stripPrefixCL p l = some r ↔ l = p ++ r := by
  induction p with
  | nil =>
    intro l r
    simp [stripPrefixCL]
  | cons c cs ih =>
    intro l r
    cases l with
    | nil => simp [stripPrefixCL]
    | cons d ds =>
      by_cases h : c = d
      · subst h
        simp [stripPrefixCL, ih]
      · simp only [stripPrefixCL, if_neg h, List.cons_append]
        constructor
        · intro hh
          cases hh
        · intro hh
          injection hh with h1 _
          exact (h h1.symm).elim

/-- Stripping a literal prefix from itself followed by a tail yields the
tail. -/
theorem stripPrefixCL_append (p l : List Char) :
    stripPrefixCL p (p ++ l) = some l :=
  (stripPrefixCL_eq_some_iff p (p ++ l) l).mpr rfl

/-- Splitting an append with `takeWhile` and `dropWhile` at the first
failing element. -/
theorem takeWhile_dropWhile_append (p : Char → Bool) :
    ∀ xs ys : List Char, (∀ c ∈ xs, p c = true) →
      (∀ c r, ys = c :: r → p c = false) →
      (xs ++ ys).takeWhile p = xs ∧ (xs ++ ys).dropWhile p = ys := by
  intro xs
  induction xs with
  | nil =>
    intro ys _ hy
    cases ys with
    | nil => simp
    | cons c r =>
      simp [List.takeWhile, List.dropWhile, hy c r rfl]
  | cons x xs ih =>
    intro ys hx hy
    have hpx : p x = true := hx x (List.mem_cons_self x xs)
    have := ih ys (fun c hc => hx c (List.mem_cons_of_mem x hc)) hy
    simp [List.takeWhile, List.dropWhile, hpx, this.1, this.2]

/-- Skipping leading whitespace reaches a given non-whitespace-headed
suffix exactly when the input is that suffix preceded by whitespace. -/
theorem skipWs_eq_append_iff (c0 : Char) (h0 : isWs c0 = false)
    (kw s t : List Char) :
    skipWs s = c0 :: (kw ++ t) ↔
      ∃ pre, s = pre ++ c0 :: (kw ++ t) ∧ ∀ c ∈ pre, isWs c = true := by
  constructor
  · intro h
    refine ⟨s.takeWhile isWs, ?_, fun c hc => List.mem_takeWhile_imp hc⟩
    rw [← h]
    exact (List.takeWhile_append_dropWhile isWs s).symm
  · rintro ⟨pre, rfl, hpre⟩
    exact (takeWhile_dropWhile_append isWs pre (c0 :: (kw ++ t)) hpre (by
      intro c r h
      injection h with h1 _
      subst h1
      exact h0)).2

/-- The function `lineEnding` accepts exactly end of input, `\n`, or
`\r\n`. -/
theorem lineEnding_isSome_iff (t : List Char) :
    (lineEnding t).isSome = true ↔
      (t = [] ∨ (∃ r, t = '\n' :: r) ∨ ∃ r, t = '\r' :: '\n' :: r) := by
  cases t with
  | nil => simp [lineEnding]
  | cons c r =>
    simp only [lineEnding]
    by_cases h1 : c = '\n'
    · subst h1
      rw [if_pos rfl]
      simp
    · rw [if_neg h1]
      by_cases h2 : c = '\r'
      · subst h2
        rw [if_pos rfl]
        cases r with
        | nil => simp [h1]
        | cons c2 r2 =>
          by_cases h3 : c2 = '\n'
          · subst h3
            simp [h1]
          · simp [h1, h3]
      · simp [h1, h2]

/-! ## Claim theorems -/

/-- C2: `note_track` on `"#START\n1100,\n1100,\n2,\n,\n#END"` yields exactly
`Start{None}`, `Notes[Don,Don,rest,rest]`, `EndMeasure`,
`Notes[Don,Don,rest,rest]`, `EndMeasure`, `Notes[Kat]`, `EndMeasure`,
`EndMeasure`, and in general every bare comma unit parses to its own
`EndMeasure` entry, so consecutive terminators give consecutive
`EndMeasure`s (empty measures are preserved, never collapsed). -/
theorem note_track_preserves_empty_measures :
    note_track (pstr "#START\n1100,\n1100,\n2,\n,\n#END") =
      some ([], [.command (.start none),
                 .notes [some .Don, some .Don, none, none], .endMeasure,
                 .notes [some .Don, some .Don, none, none], .endMeasure,
                 .notes [some .Kat], .endMeasure, .endMeasure]) ∧
    ∀ r : List Char, noteTrackEntry (',' :: r) = some (r, .endMeasure) :=
  ⟨by decide, fun _ => rfl⟩

/-- C3: `notes` maps each digit of a digit run independently to an optional
note type, in left-to-right order, leaving everything from the first
non-digit (in particular a terminating comma) unconsumed; concretely,
`notes "10201120,\n"` yields `[Don, rest, Kat, rest, Don, Don, Kat, rest]`
with remainder `",\n"`. -/
theorem notes_digit_run (ds rest : List Char) (hne : ds ≠ [])
    (hds : ∀ c ∈ ds, c.isDigit = true)
    (hrest : (rest.head?.all fun c => !c.isDigit) = true) :
    notes (ds ++ rest) = some (rest, ds.map digitToNote) ∧
    notes (pstr "10201120,\n") =
      some (pstr ",\n",
        [some .Don, none, some .Kat, none, some .Don, some .Don, some .Kat,
         none]) := by
  constructor
  · have hrest' : ∀ c r, rest = c :: r → c.isDigit = false := by
      intro c r h
      subst h
      simpa using hrest
    have hsplit := takeWhile_dropWhile_append Char.isDigit ds rest hds hrest'
    have hemp : ds.isEmpty = false := by
      cases ds with
      | nil => exact absurd rfl hne
      | cons c cs => rfl
    simp [notes, hsplit.1, hsplit.2, hemp]
  · decide

/-- C3 witness. -/
theorem notes_digit_run_witness :
    notes (pstr "10201120" ++ pstr ",\n") =
      some (pstr ",\n", (pstr "10201120").map digitToNote) :=
  (notes_digit_run (pstr "10201120") (pstr ",\n") (by decide) (by decide)
    (by decide)).1

/-- Mapping a function over an option preserves `isSome`. -/
theorem isSome_map_opt {α β : Type} (f : α → β) (o : Option α) :
    (o.map f).isSome = o.isSome := by
  cases o <;> rfl

/-- Unfolding of `start_command` after the `#START` keyword. -/
theorem start_command_append (t : List Char) :
    start_command (pstr "#START" ++ t) =
      match lineEnding t with
      | some r => some (r, TrackCommand.start none)
      | none =>
        match t with
        | [] => none
        | c :: r1 =>
          if c = ' ' then
            match stripPrefixCL (pstr "P1") r1 with
            | some r2 =>
              (lineEnding r2).map fun r3 =>
                (r3, TrackCommand.start (some .player1))
            | none =>
              match stripPrefixCL (pstr "P2") r1 with
              | some r2 =>
                (lineEnding r2).map fun r3 =>
                  (r3, TrackCommand.start (some .player2))
              | none => none
          else none := rfl

/-- Unfolding of `start_command` after `#START` and a space. -/
theorem start_command_append_space (t' : List Char) :
    start_command (pstr "#START " ++ t') =
      match stripPrefixCL (pstr "P1") t' with
      | some r2 =>
        (lineEnding r2).map fun r3 => (r3, TrackCommand.start (some .player1))
      | none =>
        match stripPrefixCL (pstr "P2") t' with
        | some r2 =>
          (lineEnding r2).map fun r3 =>
            (r3, TrackCommand.start (some .player2))
        | none => none := rfl

/-- C5: `start_command` succeeds exactly on `#START` alone (yielding
`Start{None}`) or `#START` plus a single space and `P1`/`P2` (yielding the
respective player), each terminated by line end or end of input and allowing
leading whitespace (which the repository test
`start_command("\n#START P2\n…")` requires); every other suffix — a bare
trailing space, `P3`, or any other text — fails, as does non-`#START` input
such as `#END`. -/
theorem start_command_forms :
    start_command (pstr "\n#START P2\nsomethingsomething") =
      some (pstr "somethingsomething", .start (some .player2)) ∧
    start_command (pstr "\n#START P1\nsomethingsomething") =
      some (pstr "somethingsomething", .start (some .player1)) ∧
    start_command (pstr "#START") = some ([], .start none) ∧
    start_command (pstr "#START ") = none ∧
    start_command (pstr "#START P3") = none ∧
    start_command (pstr "#END") = none ∧
    (∀ s : List Char, (start_command s).isSome = true ↔
      ∃ pre t, s = pre ++ pstr "#START" ++ t ∧ (∀ c ∈ pre, isWs c = true) ∧
        (start_command (pstr "#START" ++ t)).isSome = true) ∧
    ∀ t : List Char, (start_command (pstr "#START" ++ t)).isSome = true ↔
      ((lineEnding t).isSome = true ∨
        ∃ u, (t = ' ' :: 'P' :: '1' :: u ∨ t = ' ' :: 'P' :: '2' :: u) ∧
          (lineEnding u).isSome = true) := by
  refine ⟨by decide, by decide, by decide, by decide, by decide, by decide,
    fun s => ?_, fun t => ?_⟩
  · cases hsw : stripPrefixCL (pstr "#START") (skipWs s) with
    | none =>
      have hl : start_command s = none := by
        simp [start_command, hsw]
      rw [hl]
      constructor
      · intro h
        cases h
      · rintro ⟨pre, t, hs, hpre, _⟩
        subst hs
        have hskip : skipWs (pre ++ pstr "#START" ++ t) =
            pstr "#START" ++ t := by
          rw [List.append_assoc]
          exact (takeWhile_dropWhile_append isWs pre (pstr "#START" ++ t)
            hpre (by
              intro c r h
              have h2 : '#' :: (pstr "START" ++ t) = c :: r := h
              injection h2 with h3 _
              subst h3
              decide)).2
        rw [hskip, stripPrefixCL_append] at hsw
        cases hsw
    | some t0 =>
      have hskip : skipWs s = pstr "#START" ++ t0 :=
        (stripPrefixCL_eq_some_iff _ _ _).mp hsw
      have heq : start_command s = start_command (pstr "#START" ++ t0) := by
        rw [start_command_append]
        simp [start_command, hsw]
      rw [heq]
      constructor
      · intro h
        refine ⟨s.takeWhile isWs, t0, ?_,
          fun c hc => List.mem_takeWhile_imp hc, h⟩
        rw [List.append_assoc, ← hskip]
        exact (List.takeWhile_append_dropWhile isWs s).symm
      · rintro ⟨pre, t, hs, hpre, hsome⟩
        subst hs
        have hskip2 : skipWs (pre ++ pstr "#START" ++ t) =
            pstr "#START" ++ t := by
          rw [List.append_assoc]
          exact (takeWhile_dropWhile_append isWs pre (pstr "#START" ++ t)
            hpre (by
              intro c r h
              have h2 : '#' :: (pstr "START" ++ t) = c :: r := h
              injection h2 with h3 _
              subst h3
              decide)).2
        have ht : t0 = t :=
          List.append_cancel_left (hskip.symm.trans hskip2)
        rw [ht]
        exact hsome
  cases hle : lineEnding t with
  | some r =>
    have h : start_command (pstr "#START" ++ t) =
        some (r, TrackCommand.start none) := by
      rw [start_command_append, hle]
    simp [h]
  | none =>
    cases t with
    | nil => simp [lineEnding] at hle
    | cons c t' =>
      by_cases hc : c = ' '
      · subst hc
        rw [show pstr "#START" ++ ' ' :: t' = pstr "#START " ++ t' from rfl,
          start_command_append_space]
        cases h1 : stripPrefixCL (pstr "P1") t' with
        | some r2 =>
          have h1' : t' = 'P' :: '1' :: r2 :=
            (stripPrefixCL_eq_some_iff _ _ _).mp h1
          subst h1'
          have h12 : ('1' : Char) ≠ '2' := by decide
          simp [isSome_map_opt, h12, lineEnding, hle]
        | none =>
          cases h2 : stripPrefixCL (pstr "P2") t' with
          | some r2 =>
            have h2' : t' = 'P' :: '2' :: r2 :=
              (stripPrefixCL_eq_some_iff _ _ _).mp h2
            subst h2'
            have h21 : ('2' : Char) ≠ '1' := by decide
            simp [isSome_map_opt, h21, lineEnding, hle]
          | none =>
            constructor
            · intro hs
              simp at hs
            · rintro (hbad | ⟨u, hu | hu, _⟩)
              · simp at hbad
              · have hx : stripPrefixCL (pstr "P1") t' = some u := by
                  rw [stripPrefixCL_eq_some_iff]
                  injection hu
                rw [h1] at hx
                cases hx
              · have hx : stripPrefixCL (pstr "P2") t' = some u := by
                  rw [stripPrefixCL_eq_some_iff]
                  injection hu
                rw [h2] at hx
                cases hx
      · have hz : start_command (pstr "#START" ++ c :: t') = none := by
          rw [start_command_append, hle]
          simp [hc]
        rw [hz]
        constructor
        · intro hs
          cases hs
        · rintro (hbad | ⟨u, hu | hu, _⟩)
          · simp at hbad
          · injection hu with hcu _
            exact (hc hcu).elim
          · injection hu with hcu _
            exact (hc hcu).elim

/-- C5 counterexample to the claim as stated: `start_command` succeeds on an
input that is neither exactly `#START` nor `#START `-plus-designator — it
carries a leading line terminator (as the repository test requires). -/
theorem start_command_claim_counterexample :
    start_command (pstr "\n#START P2\nsomethingsomething") =
      some (pstr "somethingsomething", .start (some .player2)) ∧
    ¬∃ t : List Char,
      pstr "\n#START P2\nsomethingsomething" = pstr "#START" ++ t := by
  constructor
  · decide
  · rintro ⟨t, h⟩
    have h2 : '\n' :: pstr "#START P2\nsomethingsomething" =
        '#' :: (pstr "START" ++ t) := h
    injection h2 with h3 _
    exact absurd h3 (by decide)

/-- C6 counterexample to the claim as stated: `end_command` succeeds on an
input that does not begin with `#END` — it carries a leading line terminator
(as the repository test requires). -/
theorem end_command_claim_counterexample :
    end_command (pstr "\n#END\n") = some [] ∧
    ¬∃ t : List Char, pstr "\n#END\n" = pstr "#END" ++ t := by
  constructor
  · decide
  · rintro ⟨t, h⟩
    have h2 : '\n' :: pstr "#END\n" = '#' :: (pstr "END" ++ t) := h
    injection h2 with h3 _
    exact absurd h3 (by decide)

/-- C6: `end_command` succeeds if and only if the input is `#END` — allowing
leading whitespace, which the repository test `end_command("\n#END\n")`
requires — followed only by a line terminator or end of input; any trailing
non-whitespace content (e.g. `#END P1`) fails. -/
theorem end_command_forms :
    (∀ t : List Char, end_command (pstr "#END" ++ t) = lineEnding t) ∧
    (∀ t : List Char, (lineEnding t).isSome = true ↔
      (t = [] ∨ (∃ r, t = '\n' :: r) ∨ ∃ r, t = '\r' :: '\n' :: r)) ∧
    (∀ s : List Char, (end_command s).isSome = true ↔
      ∃ pre t, s = pre ++ pstr "#END" ++ t ∧ (∀ c ∈ pre, isWs c = true) ∧
        (lineEnding t).isSome = true) ∧
    end_command (pstr "\n#END\n") = some [] ∧
    end_command (pstr "#END P1") = none ∧
    end_command (pstr "\n#END P1") = none := by
  refine ⟨fun _ => rfl, lineEnding_isSome_iff, fun s => ?_, by decide,
    by decide, by decide⟩
  cases hsw : stripPrefixCL (pstr "#END") (skipWs s) with
  | none =>
    have hl : end_command s = none := by
      simp [end_command, hsw]
    rw [hl]
    constructor
    · intro h
      cases h
    · rintro ⟨pre, t, hs, hpre, _⟩
      subst hs
      have hskip : skipWs (pre ++ pstr "#END" ++ t) = pstr "#END" ++ t := by
        rw [List.append_assoc]
        exact (takeWhile_dropWhile_append isWs pre (pstr "#END" ++ t) hpre
          (by
            intro c r h
            have h2 : '#' :: (pstr "END" ++ t) = c :: r := h
            injection h2 with h3 _
            subst h3
            decide)).2
      rw [hskip, stripPrefixCL_append] at hsw
      cases hsw
  | some t0 =>
    have hl : end_command s = lineEnding t0 := by
      simp [end_command, hsw]
    have hskip : skipWs s = pstr "#END" ++ t0 :=
      (stripPrefixCL_eq_some_iff _ _ _).mp hsw
    rw [hl]
    constructor
    · intro hle
      refine ⟨s.takeWhile isWs, t0, ?_,
        fun c hc => List.mem_takeWhile_imp hc, hle⟩
      rw [List.append_assoc, ← hskip]
      exact (List.takeWhile_append_dropWhile isWs s).symm
    · rintro ⟨pre, t, hs, hpre, hlet⟩
      subst hs
      have hskip2 : skipWs (pre ++ pstr "#END" ++ t) = pstr "#END" ++ t := by
        rw [List.append_assoc]
        exact (takeWhile_dropWhile_append isWs pre (pstr "#END" ++ t) hpre
          (by
            intro c r h
            have h2 : '#' :: (pstr "END" ++ t) = c :: r := h
            injection h2 with h3 _
            subst h3
            decide)).2
      have ht : t0 = t :=
        List.append_cancel_left (hskip.symm.trans hskip2)
      rw [ht]
      exact hlet

/-- C7: `metadata_pair` on a `KEY:VALUE` line returns `(KEY, VALUE)` with the
line terminator consumed but excluded from the value, for `\n`-terminated,
`\r\n`-terminated and end-of-input-terminated lines alike; an empty value is
valid and yields the empty string. -/
theorem metadata_pair_line_forms (key value rest : List Char)
    (hk : key ≠ []) (hkc : ∀ c ∈ key, isKeyChar c = true)
    (hv : ∀ c ∈ value, isValueChar c = true) :
    metadata_pair (key ++ ':' :: (value ++ '\n' :: rest)) =
      some (rest, (key, value)) ∧
    metadata_pair (key ++ ':' :: (value ++ '\r' :: '\n' :: rest)) =
      some (rest, (key, value)) ∧
    metadata_pair (key ++ ':' :: value) = some ([], (key, value)) := by
  have hkey : ∀ tail : List Char,
      (key ++ ':' :: tail).takeWhile isKeyChar = key ∧
      (key ++ ':' :: tail).dropWhile isKeyChar = ':' :: tail := by
    intro tail
    refine takeWhile_dropWhile_append isKeyChar key (':' :: tail) hkc ?_
    intro c r h
    injection h with h1 _
    subst h1
    decide
  have hkemp : key.isEmpty = false := by
    cases key with
    | nil => exact absurd rfl hk
    | cons a b => rfl
  refine ⟨?_, ?_, ?_⟩
  · have hval := takeWhile_dropWhile_append isValueChar value ('\n' :: rest) hv
      (by
        intro c r h
        injection h with h1 _
        subst h1
        decide)
    simp [metadata_pair, (hkey _).1, (hkey _).2, hkemp, hval.1, hval.2,
      lineEnding]
  · have hval := takeWhile_dropWhile_append isValueChar value
      ('\r' :: '\n' :: rest) hv
      (by
        intro c r h
        injection h with h1 _
        subst h1
        decide)
    have hrn : ('\r' : Char) ≠ '\n' := by decide
    simp [metadata_pair, (hkey _).1, (hkey _).2, hkemp, hval.1, hval.2,
      lineEnding, hrn]
  · have hval := takeWhile_dropWhile_append isValueChar value [] hv
      (by
        intro c r h
        simp at h)
    rw [List.append_nil] at hval
    simp [metadata_pair, (hkey _).1, (hkey _).2, hkemp, hval.1, hval.2,
      lineEnding]

/-- C7 witness. -/
theorem metadata_pair_line_forms_witness :
    metadata_pair (pstr "TITLE" ++ ':' :: (pstr "POP TEAM EPIC" ++ '\n' :: [])) =
      some ([], (pstr "TITLE", pstr "POP TEAM EPIC")) ∧
    metadata_pair (pstr "EMPTY" ++ ':' :: []) =
      some ([], (pstr "EMPTY", [])) :=
  ⟨(metadata_pair_line_forms (pstr "TITLE") (pstr "POP TEAM EPIC") []
      (by decide) (by decide) (by decide)).1,
   (metadata_pair_line_forms (pstr "EMPTY") [] []
      (by decide) (by decide) (by decide)).2.2⟩

set_option maxRecDepth 4000 in
/-- C4: a chart containing a line matching neither a metadata pair nor any
note-track production — here `#GOGOSTART` with trailing tokens — fails the
whole-file parse, and a successful `tja_file` parse never leaves a remainder,
so no partial item list is ever returned. -/
theorem tja_file_rejects_unmatched_lines :
    tja_file (pstr errChart) = none ∧
    ∀ (s r : List Char) (items : List TJAFileItem),
      tja_file s = some (r, items) → r = [] := by
  constructor
  · decide
  · intro s r items h
    simp only [tja_file] at h
    split at h
    · injection h with h1
      injection h1 with h2 _
      exact h2.symm
    · cases h

/-- C4 witness: the chart of `test_measure_command` parses successfully with
an empty remainder. -/
theorem tja_file_rejects_unmatched_lines_witness :
    ([] : List Char) = [] :=
  tja_file_rejects_unmatched_lines.2 (pstr fiveFourChart) []
    [.noteTrack [.command (.start none), .command (.measure 5 4)]]
    (by decide)

set_option maxRecDepth 8000 in
/-- C1: for every chart text whose chart assembly succeeds, `parse_tja_file`
fails with `MetadataNeeded(key)` naming the first missing required key in the
fixed order `TITLE`, `BPM`, `WAVE`; when all three keys are present it never
fails with a `MetadataNeeded` error. -/
theorem parse_tja_file_requires_metadata (s : String) (r : List Char)
    (items : List TJAFileItem)
    (h : tja_file (preprocess_tja_file (pstr s)) = some (r, items)) :
    (hasKeyB items (pstr "TITLE") = false →
      parse_tja_file s = .error (.metadataNeeded (pstr "TITLE"))) ∧
    (hasKeyB items (pstr "TITLE") = true →
      hasKeyB items (pstr "BPM") = false →
      parse_tja_file s = .error (.metadataNeeded (pstr "BPM"))) ∧
    (hasKeyB items (pstr "TITLE") = true →
      hasKeyB items (pstr "BPM") = true →
      hasKeyB items (pstr "WAVE") = false →
      parse_tja_file s = .error (.metadataNeeded (pstr "WAVE"))) ∧
    (hasKeyB items (pstr "TITLE") = true →
      hasKeyB items (pstr "BPM") = true →
      hasKeyB items (pstr "WAVE") = true →
      ∀ k, parse_tja_file s ≠ .error (.metadataNeeded k)) := by
  refine ⟨?_, ?_, ?_, ?_⟩
  · intro hT
    simp [parse_tja_file, h, firstMissingKey, requiredKeys, List.find?, hT]
  · intro hT hB
    simp [parse_tja_file, h, firstMissingKey, requiredKeys, List.find?, hT, hB]
  · intro hT hB hW
    simp [parse_tja_file, h, firstMissingKey, requiredKeys, List.find?, hT,
      hB, hW]
  · intro hT hB hW k
    have hfm : firstMissingKey items = none := by
      simp [firstMissingKey, requiredKeys, List.find?, hT, hB, hW]
    cases hbp : parseDecimal ((getMeta items (pstr "BPM")).getD []) with
    | none => simp [parse_tja_file, h, hfm, hbp]
    | some q => simp [parse_tja_file, h, hfm, hbp]

set_option maxRecDepth 8000 in
/-- C1 witness: the chart of `test_tja_file_full` with its `TITLE` line
commented out fails with `MetadataNeeded("TITLE")`; the original chart does
not fail with a `MetadataNeeded` error. -/
theorem parse_tja_file_requires_metadata_witness :
    parse_tja_file noTitleChart =
      .error (.metadataNeeded (pstr "TITLE")) ∧
    parse_tja_file okFullChart ≠
      .error (.metadataNeeded (pstr "TITLE")) :=
  ⟨(parse_tja_file_requires_metadata noTitleChart [] noTitleItems
      (by decide)).1 (by decide),
   (parse_tja_file_requires_metadata okFullChart [] okFullItems
      (by decide)).2.2.2 (by decide) (by decide) (by decide) (pstr "TITLE")⟩

set_option maxRecDepth 4000 in
/-- C8: `#MEASURE 5/4` inside a `#START`…`#END` block parses to
`Measure(5,4)`, and in the timing builder a measure at tempo `t` under
signature `a/b` lasts `(60 / t) * 4 * (a / b)` seconds — so a 5/4 measure
lasts 5/4 times a 4/4 measure at the same tempo, and each `EndMeasure`
advances the time cursor by exactly that duration. -/
theorem measure_command_timing :
    tja_file (pstr fiveFourChart) =
      some ([], [.noteTrack [.command (.start none),
                             .command (.measure 5 4)]]) ∧
    (∀ t n d : ℚ, measureDuration t n d = 60 / t * 4 * (n / d)) ∧
    (∀ t : ℚ, measureDuration t 5 4 = 5 / 4 * measureDuration t 4 4) ∧
    ∀ st : TimingState, (stepTiming st .endMeasure).time =
      st.time + measureDuration st.tempo st.numerator st.denominator := by
  refine ⟨by decide, fun t n d => rfl, fun t => ?_, fun st => rfl⟩
  unfold measureDuration
  ring

/-- C9: `parse_tja_file` is deterministic — two invocations on identical
chart text yield structurally equal results; the model is a pure function of
its input, with no hidden state. -/
theorem parse_tja_file_deterministic (s t : String) (h : s = t) :
    parse_tja_file s = parse_tja_file t := by
  rw [h]

/-- C9 witness. -/
theorem parse_tja_file_deterministic_witness :
    parse_tja_file fiveFourChart = parse_tja_file fiveFourChart :=
  parse_tja_file_deterministic fiveFourChart fiveFourChart rfl

/-- C10: keys with no entry in the keyboard map (never reported via
`handle_input`) answer `false` to all three queries rather than failing;
`is_just_pressed` implies `is_pressed`, and `is_just_released` implies
`¬ is_pressed`. -/
theorem keyboard_state_queries (st : KeyboardState) (k : Nat) :
    (st.map.lookup k = none →
      st.is_pressed k = false ∧ st.is_just_pressed k = false ∧
      st.is_just_released k = false) ∧
    (st.is_just_pressed k = true → st.is_pressed k = true) ∧
    (st.is_just_released k = true → st.is_pressed k = false) := by
  refine ⟨?_, ?_, ?_⟩
  · intro h
    simp [KeyboardState.is_pressed, KeyboardState.is_just_pressed,
      KeyboardState.is_just_released, h]
  · intro h
    unfold KeyboardState.is_just_pressed at h
    unfold KeyboardState.is_pressed
    cases hk : st.map.lookup k with
    | none => simp [hk] at h
    | some p =>
      rw [hk] at h
      simp only [Bool.and_eq_true] at h
      exact h.2
  · intro h
    unfold KeyboardState.is_just_released at h
    unfold KeyboardState.is_pressed
    cases hk : st.map.lookup k with
    | none => simp [hk] at h
    | some p =>
      rw [hk] at h
      simp only [Bool.and_eq_true, Bool.not_eq_true'] at h
      exact h.2

/-- C10 witness: after reporting key `3` pressed via `handle_input` on an
empty state, `is_just_pressed 3` holds so `is_pressed 3` holds; key `5` has
no entry, so all its queries are `false`. -/
theorem keyboard_state_queries_witness :
    (KeyboardState.handle_input ⟨[]⟩ (some 3) true).is_pressed 3 = true ∧
    (KeyboardState.handle_input ⟨[]⟩ (some 3) true).is_pressed 5 = false ∧
    (KeyboardState.handle_input ⟨[]⟩ (some 3) true).is_just_pressed 5
        = false ∧
    (KeyboardState.handle_input ⟨[]⟩ (some 3) true).is_just_released 5
        = false :=
  ⟨(keyboard_state_queries (KeyboardState.handle_input ⟨[]⟩ (some 3) true)
      3).2.1 (by decide),
   (keyboard_state_queries (KeyboardState.handle_input ⟨[]⟩ (some 3) true)
      5).1 (by decide)⟩
